import Mathlib

/-!
# PlanarAlly client shape engine — verification development

Shallow embedding of the client-side shape entity of PlanarAlly
(`src/client/src/game/shapes/shape.ts`) and of the socket event handlers
(`src/unnamed/part_000`), together with theorems settling the specification
claims about the ownership/access model, the vision/movement obstruction
bookkeeping, wire serialization and group resolution.

JS numbers that are only stored and copied (coordinates, angle, badge,
stroke width) are modelled by `Int`; machine representation plays no role in
any claim.  Calls whose effects live outside the modelled state — socket
emits, canvas invalidation, and the external triangulation capability
(`visibilityStore.addToTriag` / `deleteFromTriag` / `recalculate*`, treated
by the spec as a black box) — are noted in comments and elided.
-/

namespace PlanarAlly

/-- Access triple of a grant (`ShapeAccess` in `shapes/owners.ts`); field order
follows the `defaultAccess` literal in `shape.ts` line 75. -/
structure ShapeAccess where
  vision : Bool
  movement : Bool
  edit : Bool
deriving DecidableEq, Repr, Fintype

/-- The two derived access rules that `updateOwner` (lines 489–497) and
`updateDefaultOwner` (lines 526–534) apply, in sequence, to the incoming
triple `new` given the currently stored triple `cur`: granting edit forces
vision and movement on; revoking any field of a previously edit-capable grant
(`Object.values(access).some(a => !a)`) forces edit off. -/
def applyAccessRules (cur new : ShapeAccess) : ShapeAccess :=
  -- Force other permissions to true if edit access is granted
  let a1 := if !cur.edit && new.edit then { new with movement := true, vision := true }
            else new
  -- Force remove edit permission if a specific permission is toggled off
  if cur.edit && (!a1.vision || !a1.movement || !a1.edit) then { a1 with edit := false }
  else a1

/-- A per-user access grant (`ShapeOwner`): the shape's uuid, the user name and
the access triple. -/
structure ShapeOwner where
  shape : String
  user : String
  access : ShapeAccess
deriving DecidableEq, Repr

/-- Argument of `addOwner`/`updateOwner`: the `shape` field is optional
(`PartialBy<_, "shape">`); omitted wire access fields default to `false` in
`addOwner`, which we model by a total triple. -/
structure PartialOwner where
  oshape : Option String
  user : String
  access : ShapeAccess
deriving DecidableEq, Repr

/-- Client aura record; `shape.ts` reads `uuid`, `value`, `dim` and
`visionSource`. -/
structure Aura where
  uuid : String
  value : Int
  dim : Int
  visionSource : Bool
deriving DecidableEq, Repr

/-- Modelled from the spec: trackers are opaque annotated sub-records passed
through serialization unchanged (their type lives in `comm/types`, not among
the sources). -/
structure Tracker where
  raw : String
deriving DecidableEq, Repr

/-- Modelled from the spec: labels are opaque annotated sub-records passed
through serialization unchanged. -/
structure Label where
  raw : String
deriving DecidableEq, Repr

/-- Value stored in the open `options` map (`Map<string, any>`): the sources
store strings (`groupId`) and lists of member uuids (`groupInfo`). -/
inductive OptVal where
  | str (s : String)
  | ids (l : List String)
deriving DecidableEq, Repr

/-- The unchecked `<string>` cast the source applies to an options value; a
well-typed store never hits the default arm. -/
def OptVal.castString : OptVal → String
  | .str s => s
  | .ids _ => ""

/-- The unchecked `<string[]>` cast the source applies to the `groupInfo`
options value. -/
def OptVal.castIds : OptVal → List String
  | .ids l => l
  | .str _ => []

/-- The client shape entity: the fields of the abstract `Shape` class that the
verified operations read or write.  `refX`/`refY` are the reference point's
coordinates; `options` is the JS `Map` as an insertion-ordered key/value list
with unique keys. -/
structure Shape where
  type_ : String
  uuid : String
  refX : Int
  refY : Int
  _floor : String
  _layer : String
  preventSync : Bool
  _angle : Int
  fillColour : String
  strokeColour : String
  strokeWidth : Int
  name : String
  nameVisible : Bool
  trackers : List Tracker
  auras : List Aura
  labels : List Label
  _owners : List ShapeOwner
  visionObstruction : Bool
  movementObstruction : Bool
  isToken : Bool
  isInvisible : Bool
  showHighlight : Bool
  annotation : String
  globalCompositeOperation : String
  options : List (String × OptVal)
  badge : Int
  showBadge : Bool
  isLocked : Bool
  defaultAccess : ShapeAccess
deriving DecidableEq, Repr

/-- The `Shape` constructor (lines 77–82) with the class field initializers
(lines 32–75).  `fillColour`/`strokeColour` are assigned only when defined;
a fresh uuid is generated when none is supplied, modelled by a required
argument.  `_floor`/`_layer` use definite-assignment (`!`) and start
unset, modelled by `""`.  `type_` is an abstract readonly member fixed by the
concrete subclass. -/
def mkShape (type_ : String) (refX refY : Int) (fillColour strokeColour : Option String)
    (uuid : String) : Shape :=
  { type_ := type_
    uuid := uuid
    refX := refX
    refY := refY
    _floor := ""
    _layer := ""
    preventSync := false
    _angle := 0
    fillColour := fillColour.getD "#000"
    strokeColour := strokeColour.getD "rgba(0,0,0,0)"
    strokeWidth := 5
    name := "Unknown shape"
    nameVisible := true
    trackers := []
    auras := []
    labels := []
    _owners := []
    visionObstruction := false
    movementObstruction := false
    isToken := false
    isInvisible := false
    showHighlight := false
    annotation := ""
    globalCompositeOperation := "source-over"
    options := []
    badge := 1
    showBadge := false
    isLocked := false
    defaultAccess := ⟨false, false, false⟩ }

/-- The slice of the global `gameStore` that the ownership operations consult:
the acting identity, the DM flag, impersonation state and the
locally-owned-tokens set. -/
structure GameStore where
  IS_DM : Bool
  FAKE_PLAYER : Bool
  username : String
  activeTokens : List String
  ownedtokens : List String
deriving DecidableEq, Repr

/-- The capability-requirement argument of `ownedBy`; absent members of the
`Partial` options object are falsy, modelled by `false` defaults. -/
structure OwnedByOptions where
  editAccess : Bool := false
  visionAccess : Bool := false
  movementAccess : Bool := false
deriving DecidableEq, Repr

/-- JS `findIndex`/`indexOf`: index of the first element satisfying `p`,
`none` for the source's `-1`. -/
def findIdxA (p : α → Bool) : List α → Option Nat
  | [] => none
  | x :: xs => if p x then some 0 else (findIdxA p xs).map (· + 1)

/-- Embeds `Shape.ownedBy` (lines 442–457): a pure predicate over the game store and
the shape's grants. -/
def ownedBy (g : GameStore) (s : Shape) (o : OwnedByOptions) : Bool :=
  g.IS_DM ||
  (g.FAKE_PLAYER && g.activeTokens.contains s.uuid) ||
  (o.editAccess && s.defaultAccess.edit) ||
  (o.movementAccess && s.defaultAccess.movement) ||
  (o.visionAccess && s.defaultAccess.vision) ||
  s._owners.any fun u =>
    u.user == g.username &&
    (if o.editAccess then u.access.edit else true) &&
    (if o.movementAccess then u.access.movement else true) &&
    (if o.visionAccess then u.access.vision else true)

/-- Embeds `Shape.hasOwner` (lines 459–461). -/
def hasOwner (s : Shape) (username : String) : Bool :=
  s._owners.any fun u => u.user == username

/-- Embeds `Shape.addOwner` (lines 463–482).  The socket emit and the
full-line-of-sight invalidation are external effects and are elided; the
locally-owned-tokens push on the game store is modelled. -/
def addOwner (s : Shape) (g : GameStore) (o : PartialOwner) : Shape × GameStore :=
  -- Force other permissions to true if edit access is granted
  let acc := if o.access.edit then { o.access with movement := true, vision := true }
             else o.access
  let fullOwner : ShapeOwner := ⟨o.oshape.getD s.uuid, o.user, acc⟩
  if fullOwner.shape ≠ s.uuid then (s, g)
  else if hasOwner s o.user then (s, g)
  else
    let s' := { s with _owners := s._owners ++ [fullOwner] }
    let g' := if acc.vision && s.isToken && (o.user == g.username) then
                { g with ownedtokens := g.ownedtokens ++ [s.uuid] }
              else g
    (s', g')

/-- Replace the first list entry satisfying `p` by its image under `f`
(the source mutates the entry found by `Array.prototype.find`). -/
def updateFirst (p : α → Bool) (f : α → α) : List α → List α
  | [] => []
  | x :: xs => if p x then f x :: xs else x :: updateFirst p f xs

/-- Embeds `Shape.updateOwner` (lines 484–511).  `fullOwner.access` aliases
`owner.access`, so the edit-implication rule and the edit-revocation rule act
on one triple in sequence; the socket emit and light invalidation are
elided. -/
def updateOwner (s : Shape) (g : GameStore) (o : PartialOwner) : Shape × GameStore :=
  let fullShape := o.oshape.getD s.uuid
  if fullShape ≠ s.uuid then (s, g)
  else
    match s._owners.find? (fun ow => ow.user == o.user) with
    | none => (s, g)
    | some targetOwner =>
      let acc2 := applyAccessRules targetOwner.access o.access
      let g' :=
        if targetOwner.access.vision ≠ acc2.vision && targetOwner.user == g.username then
          if acc2.vision then
            if g.ownedtokens.contains s.uuid then g
            else { g with ownedtokens := g.ownedtokens ++ [s.uuid] }
          else { g with ownedtokens := g.ownedtokens.erase s.uuid }
        else g
      let s' := { s with
                  _owners := updateFirst (fun ow => ow.user == o.user)
                               (fun ow => { ow with access := acc2 }) s._owners }
      (s', g')

/-- Embeds `Shape.removeOwner` (lines 513–523): splice out the entry at the
first index whose user matches; emit and light invalidation elided. -/
def removeOwner (s : Shape) (g : GameStore) (owner : String) : Shape × GameStore :=
  match findIdxA (fun o => o.user == owner) s._owners with
  | none => (s, g)
  | some ownerIndex =>
    let s' := { s with _owners := s._owners.eraseIdx ownerIndex }
    let g' := if owner == g.username then { g with ownedtokens := g.ownedtokens.erase s.uuid }
              else g
    (s', g')

/-- Embeds `Shape.updateDefaultOwner` (lines 525–546): applies the edit-implication
and edit-revocation rules to the default triple, stores it, then reconciles
the locally-owned-tokens set using `ownedBy` on the updated shape; emit and
light invalidation elided. -/
def updateDefaultOwner (s : Shape) (g : GameStore) (access : ShapeAccess) :
    Shape × GameStore :=
  let a2 := applyAccessRules s.defaultAccess access
  let s' := { s with defaultAccess := a2 }
  let g' :=
    if a2.vision then
      if ownedBy g s' { visionAccess := true } && !g.ownedtokens.contains s.uuid then
        { g with ownedtokens := g.ownedtokens ++ [s.uuid] }
      else g
    else
      if !ownedBy g s' { visionAccess := true } && g.ownedtokens.contains s.uuid then
        { g with ownedtokens := g.ownedtokens.erase s.uuid }
      else g
  (s', g')

/-! ## Vision / movement obstruction bookkeeping

The visibility store keeps, per floor, a vision blocker list, a movement
blocker list and a vision-source registry of (shape uuid, aura uuid) pairs
(`getBlockers`/`addBlocker`/`sliceBlockers`/`getVisionSources`/
`setVisionSources` in `visibility/utils`).  A shape only ever touches the
slice belonging to its own `_floor`, which is the state modelled here. -/

/-- An entry of the floor's vision-source registry. -/
structure VSEntry where
  shape : String
  aura : String
deriving DecidableEq, Repr

/-- The visibility store's state for the shape's floor. -/
structure FloorState where
  visionBlockers : List String
  movementBlockers : List String
  visionSources : List VSEntry
deriving DecidableEq, Repr

/-- One iteration of the first vision-source loop (lines 212–219): look up the
first registry entry with this aura's uuid; a vision-source aura missing from
the registry is appended, a non-vision-source aura found in it is spliced
out. -/
def vsStep (uuid : String) (acc : List VSEntry) (au : Aura) : List VSEntry :=
  match findIdxA (fun o => o.aura == au.uuid) acc with
  | none => if au.visionSource then acc ++ [⟨uuid, au.uuid⟩] else acc
  | some i => if au.visionSource then acc else acc.eraseIdx i

/-- The second vision-source loop (lines 221–226): walk the registry from the
tail and splice out every entry of this shape whose aura is no longer one of
its vision-source auras.  Removing index `i` never shifts the indices still
to be visited, so the downward splice loop is this `foldr`. -/
def vsPrune (uuid : String) (auras : List Aura) (vs : List VSEntry) : List VSEntry :=
  vs.foldr
    (fun ls acc =>
      if ls.shape == uuid && !(auras.any fun a => a.uuid == ls.aura && a.visionSource) then acc
      else ls :: acc)
    []

/-- The blocker branch that `checkVisionSources` (lines 197–208) and
`setMovementBlock` (lines 234–245) both perform against their target's
blocker list: `indexOf` the uuid; a set flag with the uuid absent appends it
(`addBlocker`) and marks altered, a cleared flag with the uuid present
splices it out (`sliceBlockers`) and marks altered; otherwise nothing
happens.  Returns the altered mark and the new blocker list. -/
def blockerReconcile (uuid : String) (flag : Bool) (l : List String) : Bool × List String :=
  match flag, findIdxA (fun x => x == uuid) l with
  | true, none => (true, l ++ [uuid])
  | false, some i => (true, l.eraseIdx i)
  | _, _ => (false, l)

/-- Embeds `Shape.checkVisionSources` (lines 195–229): reconcile the floor's vision
blocker list with `visionObstruction`, then reconcile the vision-source
registry with the shape's auras.  `recalculate` only gates the calls into the
external triangulation capability (`addToTriag`/`deleteFromTriag`/
`recalculateVision`), which the spec treats as a black box; they do not touch
the modelled state.  Returns `alteredVision` and the new floor state. -/
def checkVisionSources (s : Shape) (recalculate : Bool) (st : FloorState) :
    Bool × FloorState :=
  let step := blockerReconcile s.uuid s.visionObstruction st.visionBlockers
  let vs1 := s.auras.foldl (vsStep s.uuid) st.visionSources
  let vs2 := vsPrune s.uuid s.auras vs1
  (step.1, { st with visionBlockers := step.2, visionSources := vs2 })

/-- Embeds `Shape.setMovementBlock` (lines 231–247): store the flag
(`blocksMovement || false` is `blocksMovement` on booleans) and reconcile the
floor's movement blocker list; triangulation calls elided as above. -/
def setMovementBlock (s : Shape) (blocksMovement : Bool) (recalculate : Bool)
    (st : FloorState) : Shape × Bool × FloorState :=
  let s' := { s with movementObstruction := blocksMovement }
  let step := blockerReconcile s.uuid s'.movementObstruction st.movementBlockers
  (s', step.1, { st with movementBlockers := step.2 })

/-! ## Serialization -/

/-- The wire payload of a shape (`ServerShape`, §6): every field `getBaseDict`
emits.  `options` is the serialized key/value pair list; `none` models an
absent (falsy) options string, `some ps` a present one holding the pairs
`ps`. -/
structure ServerShape where
  type_ : String
  uuid : String
  x : Int
  y : Int
  angle : Int
  floor : String
  layer : String
  draw_operator : String
  movement_obstruction : Bool
  vision_obstruction : Bool
  auras : List Aura
  trackers : List Tracker
  labels : List Label
  owners : List ShapeOwner
  fill_colour : String
  stroke_colour : String
  stroke_width : Int
  name : String
  name_visible : Bool
  annotation : String
  is_token : Bool
  is_invisible : Bool
  options : Option (List (String × OptVal))
  badge : Int
  show_badge : Bool
  is_locked : Bool
  default_edit_access : Bool
  default_movement_access : Bool
  default_vision_access : Bool
deriving DecidableEq, Repr

/-- Modelled from the spec: the aura wire conversion (`aurasFromServer` in
`comm/conversion/aura`, not among the sources) is a field-renaming bijection
carried for round-trip fidelity; both representations are one type here and
the conversion is the identity. -/
def aurasFromServer (l : List Aura) : List Aura := l

/-- Modelled from the spec: inverse direction of the aura wire conversion. -/
def aurasToServer (l : List Aura) : List Aura := l

/-- Modelled from the spec: the owner wire conversion (`ownerToClient` in
`comm/types/shapes`, not among the sources) is a field-renaming bijection on
`{shape, user, access}`; modelled as the identity. -/
def ownerToClient (o : ShapeOwner) : ShapeOwner := o

/-- Modelled from the spec: inverse direction of the owner wire conversion. -/
def ownerToServer (o : ShapeOwner) : ShapeOwner := o

/-- Embeds `new Map(pairs)`: JS `Map` keeps one entry per key — a repeated key
updates the value in place at its first position; fresh keys append. -/
def mapFromPairs (ps : List (String × OptVal)) : List (String × OptVal) :=
  ps.foldl
    (fun acc p =>
      if acc.any (fun q => q.1 == p.1) then
        acc.map fun q => if q.1 == p.1 then (q.1, p.2) else q
      else acc ++ [p])
    []

/-- Embeds `Shape.getBaseDict` (lines 273–306).  `JSON.stringify([...this.options])`
is modelled as the stored pair list itself (the JSON round trip of the pair
list is the identity at this granularity); the emitted string is never empty,
hence `some`. -/
def getBaseDict (s : Shape) : ServerShape :=
  { type_ := s.type_
    uuid := s.uuid
    x := s.refX
    y := s.refY
    angle := s._angle
    floor := s._floor
    layer := s._layer
    draw_operator := s.globalCompositeOperation
    movement_obstruction := s.movementObstruction
    vision_obstruction := s.visionObstruction
    auras := aurasToServer s.auras
    trackers := s.trackers
    labels := s.labels
    owners := s._owners.map ownerToServer
    fill_colour := s.fillColour
    stroke_colour := s.strokeColour
    stroke_width := s.strokeWidth
    name := s.name
    name_visible := s.nameVisible
    annotation := s.annotation
    is_token := s.isToken
    is_invisible := s.isInvisible
    options := some s.options
    badge := s.badge
    show_badge := s.showBadge
    is_locked := s.isLocked
    default_edit_access := s.defaultAccess.edit
    default_movement_access := s.defaultAccess.movement
    default_vision_access := s.defaultAccess.vision }

/-- Embeds `Shape.fromDict` (lines 307–338).  `this.angle = data.angle` goes through
the angle setter, whose `updatePoints` call only touches the layer's point
index; the truthiness guards on `annotation`, `name` and `options` are
emptiness/presence tests; the final `updateDefaultOwner(…, false)` call is the
operation defined above, threading the game store. -/
def fromDict (s : Shape) (g : GameStore) (data : ServerShape) : Shape × GameStore :=
  let s' := { s with
    _layer := data.layer
    _floor := data.floor
    _angle := data.angle
    globalCompositeOperation := data.draw_operator
    movementObstruction := data.movement_obstruction
    visionObstruction := data.vision_obstruction
    auras := aurasFromServer data.auras
    trackers := data.trackers
    labels := data.labels
    _owners := data.owners.map ownerToClient
    fillColour := data.fill_colour
    strokeColour := data.stroke_colour
    isToken := data.is_token
    isInvisible := data.is_invisible
    nameVisible := data.name_visible
    badge := data.badge
    showBadge := data.show_badge
    isLocked := data.is_locked
    annotation := if data.annotation ≠ "" then data.annotation else s.annotation
    name := if data.name ≠ "" then data.name else s.name
    options := match data.options with
               | some ps => mapFromPairs ps
               | none => s.options }
  updateDefaultOwner s' g
    ⟨data.default_vision_access, data.default_movement_access, data.default_edit_access⟩

/-- Modelled from the spec: reconstruction from a network payload
(`createShapeFromDict`, not among the sources) constructs the shape subclass
named by `type_` with the payload's uuid and position and applies
`fromDict`. -/
def fromWireFormat (g : GameStore) (data : ServerShape) : Shape × GameStore :=
  fromDict { mkShape data.type_ data.x data.y none none data.uuid with type_ := data.type_ }
    g data

/-! ## Group membership -/

/-- JS `Map.has` on the options map. -/
def optHas (opts : List (String × OptVal)) (k : String) : Bool :=
  opts.any fun q => q.1 == k

/-- JS `Map.get` on the options map. -/
def optGet (opts : List (String × OptVal)) (k : String) : Option OptVal :=
  (opts.find? fun q => q.1 == k).map (·.2)

/-- Embeds `Shape.getGroupMembers` (lines 552–566): resolve the group leader via the
options mapping and `layerManager.UUIDMap` (modelled as an association list
from uuid to shape), then accumulate the members of the leader's `groupInfo`
that still exist in the uuid map. -/
def getGroupMembers (um : List (String × Shape)) (s : Shape) : List Shape :=
  if !(optHas s.options "groupId" || optHas s.options "groupInfo") then [s]
  else
    let groupId := match optGet s.options "groupId" with
                   | some v => v.castString
                   | none => s.uuid
    let groupLeader : Option Shape :=
      if groupId == s.uuid then some s
      else ((um.find? fun q => q.1 == groupId).map (·.2))
    match groupLeader with
    | none => [s]
    | some gl =>
      if !optHas gl.options "groupInfo" then [s]
      else
        let groupIds := match optGet gl.options "groupInfo" with
                        | some v => v.castIds
                        | none => []
        gl :: groupIds.foldl
          (fun acc u =>
            match (um.find? fun q => q.1 == u).map (·.2) with
            | some sh => acc ++ [sh]
            | none => acc)
          []

/-! ## Socket event handling (`src/unnamed/part_000`) -/

/-- The slice of `gameManager.layerManager` the `"remove shape"` handler
consults: the uuid→shape map, the known layer names with each layer's shape
list, and the floor's blocker/vision-source state. -/
structure BoardState where
  uuidMap : List (String × Shape)
  layers : List (String × List String)
  floorState : FloorState
deriving DecidableEq, Repr

/-- Embeds `layerManager.hasLayer`. -/
def hasLayer (b : BoardState) (name : String) : Bool :=
  b.layers.any fun l => l.1 == name

/-- Modelled from the spec: `Layer.removeShape` is not among the sources; per
the spec's lifecycle, removal first unregisters the shape from every blocker
and vision-source set and from its layer's index and uuid map. -/
def removeShapeFromLayer (b : BoardState) (layerName : String) (sh : Shape) : BoardState :=
  { uuidMap := b.uuidMap.filter fun q => !(q.1 == sh.uuid)
    layers := b.layers.map fun l =>
      if l.1 == layerName then (l.1, l.2.filter fun u => !(u == sh.uuid)) else l
    floorState :=
      { visionBlockers := b.floorState.visionBlockers.filter fun u => !(u == sh.uuid)
        movementBlockers := b.floorState.movementBlockers.filter fun u => !(u == sh.uuid)
        visionSources := b.floorState.visionSources.filter fun e => !(e.shape == sh.uuid) } }

/-- The `socket.on("remove shape")` handler (`part_000` lines 76–88): unknown
uuid or unknown layer logs a diagnostic and returns without touching any
state; otherwise the shape is removed from its layer (`layer.invalidate` is a
rendering effect and is elided).  Returns the new state and the diagnostic, if
any. -/
def onRemoveShape (b : BoardState) (payload : ServerShape) : BoardState × Option String :=
  match (b.uuidMap.find? fun q => q.1 == payload.uuid).map (·.2) with
  | none => (b, some "Attempted to remove an unknown shape")
  | some sh =>
    if !hasLayer b payload.layer then
      (b, some ("Attempted to remove shape from an unknown layer " ++ payload.layer))
    else
      (removeShapeFromLayer b payload.layer sh, none)

/-! ## The edit ⇒ vision ∧ movement invariant -/

/-- The access-grant invariant of §3: edit access implies vision and movement
access. -/
def accInv (a : ShapeAccess) : Prop := a.edit = true → a.vision = true ∧ a.movement = true

instance (a : ShapeAccess) : Decidable (accInv a) := by unfold accInv; infer_instance

/-- The invariant for a whole shape: every per-owner grant and the default
triple satisfy `accInv`. -/
def shapeAccInv (s : Shape) : Prop :=
  (∀ ow ∈ s._owners, accInv ow.access) ∧ accInv s.defaultAccess

instance (s : Shape) : Decidable (shapeAccInv s) := by unfold shapeAccInv; infer_instance

/-- The claim's reading of `ownedBy` (C5): true exactly when the acting
identity is the game master, or impersonates an owned token, or the default
access grants **all** of the required capabilities, or a per-user entry for
the acting identity grants all of them. -/
def ownedBySpecC5 (g : GameStore) (s : Shape) (o : OwnedByOptions) : Bool :=
  g.IS_DM ||
  (g.FAKE_PLAYER && g.activeTokens.contains s.uuid) ||
  ((!o.editAccess || s.defaultAccess.edit) &&
   (!o.movementAccess || s.defaultAccess.movement) &&
   (!o.visionAccess || s.defaultAccess.vision)) ||
  s._owners.any fun u =>
    u.user == g.username &&
    (!o.editAccess || u.access.edit) &&
    (!o.movementAccess || u.access.movement) &&
    (!o.visionAccess || u.access.vision)

/-! ## State-machine view of the blocker reconciliation (C2) -/

/-- One obstruction mutation of the claim's sequences: `move b` is
`setMovementBlock(b, true)`, `vision b` sets `visionObstruction := b` and then
runs `checkVisionSources(true)`. -/
inductive BlockOp where
  | move (b : Bool)
  | vision (b : Bool)
deriving DecidableEq, Repr

/-- Apply one obstruction mutation to a shape and its floor state. -/
def runOp (p : Shape × FloorState) : BlockOp → Shape × FloorState
  | .move b =>
    let r := setMovementBlock p.1 b true p.2
    (r.1, r.2.2)
  | .vision b =>
    let s' := { p.1 with visionObstruction := b }
    (s', (checkVisionSources s' true p.2).2)

/-- Apply a sequence of obstruction mutations. -/
def runOps (p : Shape × FloorState) (ops : List BlockOp) : Shape × FloorState :=
  ops.foldl runOp p

/-- Blocker-set consistency (§3/§8): membership of the shape's uuid in each of
the floor's blocker lists coincides with the corresponding obstruction flag,
and the uuid appears at most once per list. -/
def consistent (s : Shape) (st : FloorState) : Prop :=
  ((s.visionObstruction = true) ↔ s.uuid ∈ st.visionBlockers) ∧
  st.visionBlockers.count s.uuid ≤ 1 ∧
  ((s.movementObstruction = true) ↔ s.uuid ∈ st.movementBlockers) ∧
  st.movementBlockers.count s.uuid ≤ 1

instance (s : Shape) (st : FloorState) : Decidable (consistent s st) := by
  unfold consistent; infer_instance

/-! ## Concrete fixtures used by counterexamples and witnesses -/

/-- A game store for the user `"bob"`, who is neither DM nor impersonating. -/
def exG : GameStore :=
  { IS_DM := false, FAKE_PLAYER := false, username := "bob", activeTokens := [],
    ownedtokens := [] }

/-- A freshly constructed shape with uuid `"s1"`. -/
def exShape : Shape := mkShape "rect" 0 0 none none "s1"

/-- A wire payload with every flag benign; fields are overridden per test. -/
def exData : ServerShape :=
  { type_ := "rect", uuid := "s1", x := 0, y := 0, angle := 0, floor := "f", layer := "l",
    draw_operator := "source-over", movement_obstruction := false,
    vision_obstruction := false, auras := [], trackers := [], labels := [], owners := [],
    fill_colour := "#000", stroke_colour := "rgba(0,0,0,0)", stroke_width := 5,
    name := "token", name_visible := true, annotation := "", is_token := false,
    is_invisible := false, options := some [], badge := 1, show_badge := false,
    is_locked := false, default_edit_access := false, default_movement_access := false,
    default_vision_access := false }

/-- A floor with empty blocker lists and an empty vision-source registry. -/
def emptyFloor : FloorState := { visionBlockers := [], movementBlockers := [], visionSources := [] }

/-- A group leader whose `groupInfo` references two live members and one
member id that no longer exists. -/
def c8Leader : Shape :=
  { exShape with options := [("groupInfo", OptVal.ids ["m1", "missing", "m2"])] }

/-- A live group member. -/
def c8M1 : Shape :=
  { mkShape "rect" 1 1 none none "m1" with options := [("groupId", OptVal.str "s1")] }

/-- Another live group member. -/
def c8M2 : Shape :=
  { mkShape "rect" 2 2 none none "m2" with options := [("groupId", OptVal.str "s1")] }

/-- The uuid map holding the leader and the two live members; `"missing"` is
absent. -/
def c8UM : List (String × Shape) := [("s1", c8Leader), ("m1", c8M1), ("m2", c8M2)]

/-- A board knowing one shape `"s1"` on the layer `"l"`. -/
def c9Board : BoardState :=
  { uuidMap := [("s1", exShape)], layers := [("l", ["s1"])], floorState := emptyFloor }

lemma accInv_applyAccessRules (cur new : ShapeAccess) : accInv (applyAccessRules cur new) := by
  revert cur new; decide

lemma accInv_addOwner_force (a : ShapeAccess) :
    accInv (if a.edit then { a with movement := true, vision := true } else a) := by
  revert a; decide

lemma mem_updateFirst (p : α → Bool) (f : α → α) :
    ∀ (l : List α) (x : α), x ∈ updateFirst p f l → x ∈ l ∨ ∃ y ∈ l, x = f y := by
  intro l
  induction l with
  | nil => intro x hx; simp [updateFirst] at hx
  | cons a as ih =>
    intro x hx
    by_cases hpa : p a
    · simp only [updateFirst, if_pos hpa, List.mem_cons] at hx
      rcases hx with h | h
      · exact Or.inr ⟨a, List.mem_cons_self a as, h⟩
      · exact Or.inl (List.mem_cons_of_mem a h)
    · simp only [updateFirst, if_neg hpa, List.mem_cons] at hx
      rcases hx with h | h
      · exact Or.inl (h ▸ List.mem_cons_self a as)
      · rcases ih x h with h' | ⟨y, hy, hxy⟩
        · exact Or.inl (List.mem_cons_of_mem a h')
        · exact Or.inr ⟨y, List.mem_cons_of_mem a hy, hxy⟩

lemma find?_updateFirst (p : α → Bool) (f : α → α)
    (hf : ∀ x, p x = true → p (f x) = true) :
    ∀ (l : List α) (t : α), l.find? p = some t →
      (updateFirst p f l).find? p = some (f t) := by
  intro l
  induction l with
  | nil => intro t ht; simp at ht
  | cons a as ih =>
    intro t ht
    by_cases hpa : p a
    · rw [List.find?_cons_of_pos _ hpa] at ht
      cases ht
      simp [updateFirst, if_pos hpa, List.find?_cons_of_pos _ (hf a hpa)]
    · rw [List.find?_cons_of_neg _ hpa] at ht
      simp [updateFirst, if_neg hpa, List.find?_cons_of_neg _ hpa, ih t ht]

/-! ## C1 — edit implies vision and movement at every mutation point -/

/-- Lemma: `addOwner` either rejects (duplicate user or shape-id mismatch) or appends
exactly the forced grant; the default triple is never touched. -/
lemma addOwner_fst (s : Shape) (g : GameStore) (o : PartialOwner) :
    (addOwner s g o).1 = s ∨
    (addOwner s g o).1 = { s with _owners := s._owners ++
      [⟨o.oshape.getD s.uuid, o.user,
        if o.access.edit then { o.access with movement := true, vision := true }
        else o.access⟩] } := by
  unfold addOwner
  by_cases hg : o.oshape.getD s.uuid ≠ s.uuid
  · left; simp [hg]
  · by_cases hh : hasOwner s o.user
    · left; simp [hg, hh]
    · right; simp [hg, hh]

/-- Lemma: `updateOwner` is a no-op unless the user has an entry, in which case the
first matching entry's access is replaced by the rule-adjusted triple. -/
lemma updateOwner_fst (s : Shape) (g : GameStore) (o : PartialOwner) :
    (updateOwner s g o).1 = s ∨
    ∃ t, s._owners.find? (fun ow => ow.user == o.user) = some t ∧
      (updateOwner s g o).1 = { s with
        _owners := updateFirst (fun ow => ow.user == o.user)
          (fun ow => { ow with access := applyAccessRules t.access o.access })
          s._owners } := by
  unfold updateOwner
  by_cases hg : o.oshape.getD s.uuid ≠ s.uuid
  · left; simp [hg]
  · simp only [if_neg hg]
    cases hfind : s._owners.find? (fun ow => ow.user == o.user) with
    | none => left; rfl
    | some t => right; exact ⟨t, rfl, rfl⟩

lemma fromDict_defaultAccess (s : Shape) (g : GameStore) (data : ServerShape) :
    ((fromDict s g data).1).defaultAccess =
      applyAccessRules s.defaultAccess
        ⟨data.default_vision_access, data.default_movement_access,
         data.default_edit_access⟩ := rfl

lemma fromDict_owners (s : Shape) (g : GameStore) (data : ServerShape) :
    ((fromDict s g data).1)._owners = data.owners.map ownerToClient := rfl

/-- C1 fails as stated: `fromDict` stores the payload's per-owner grants
without applying the edit-implication rule.  A payload whose single owner
grant has `edit = true, vision = false, movement = false` reconstructs to a
shape whose stored grant violates `edit ⇒ vision ∧ movement`. -/
theorem c1_counterexample :
    ∃ ow ∈ ((fromDict exShape exG
        { exData with owners := [⟨"s1", "alice", ⟨false, false, true⟩⟩] }).1)._owners,
      ow.access.edit = true ∧ ow.access.vision = false := by
  decide

/-- C1 (amended): the edit ⇒ vision ∧ movement invariant is preserved by
`addOwner`, `updateOwner` and `updateDefaultOwner`, and `fromDict` enforces it
on the default access triple; but `fromDict` stores the payload's per-owner
grants exactly as received, so after `fromDict` the per-owner grants satisfy
the invariant only when the payload's grants already do. -/
theorem c1_edit_implies_access_amended :
    (∀ (s : Shape) (g : GameStore) (o : PartialOwner),
       shapeAccInv s → shapeAccInv ((addOwner s g o).1)) ∧
    (∀ (s : Shape) (g : GameStore) (o : PartialOwner),
       shapeAccInv s → shapeAccInv ((updateOwner s g o).1)) ∧
    (∀ (s : Shape) (g : GameStore) (a : ShapeAccess),
       shapeAccInv s → shapeAccInv ((updateDefaultOwner s g a).1)) ∧
    (∀ (s : Shape) (g : GameStore) (data : ServerShape),
       accInv (((fromDict s g data).1).defaultAccess)) ∧
    (∀ (s : Shape) (g : GameStore) (data : ServerShape),
       (∀ ow ∈ data.owners, accInv ow.access) →
       ∀ ow ∈ ((fromDict s g data).1)._owners, accInv ow.access) := by
  refine ⟨?_, ?_, ?_, ?_, ?_⟩
  · intro s g o h
    rcases addOwner_fst s g o with heq | heq
    · rw [heq]; exact h
    · rw [heq]
      refine ⟨?_, h.2⟩
      intro ow how
      rcases List.mem_append.mp how with hmem | hmem
      · exact h.1 ow hmem
      · have : ow = ⟨o.oshape.getD s.uuid, o.user,
            if o.access.edit then { o.access with movement := true, vision := true }
            else o.access⟩ := by simpa using hmem
        subst this
        exact accInv_addOwner_force o.access
  · intro s g o h
    rcases updateOwner_fst s g o with heq | ⟨t, _, heq⟩
    · rw [heq]; exact h
    · rw [heq]
      refine ⟨?_, h.2⟩
      intro ow how
      rcases mem_updateFirst _ _ _ _ how with hmem | ⟨y, _, rfl⟩
      · exact h.1 ow hmem
      · exact accInv_applyAccessRules _ _
  · intro s g a h
    exact ⟨h.1, accInv_applyAccessRules _ _⟩
  · intro s g data
    rw [fromDict_defaultAccess]
    exact accInv_applyAccessRules _ _
  · intro s g data h ow how
    rw [fromDict_owners] at how
    rcases List.mem_map.mp how with ⟨y, hy, rfl⟩
    exact h y hy

/-- Witness for the amended C1: the preservation statements applied to
concrete inputs with their hypotheses discharged by evaluation. -/
theorem c1_edit_implies_access_amended_witness :
    shapeAccInv ((addOwner exShape exG ⟨none, "bob", ⟨false, false, true⟩⟩).1) ∧
    shapeAccInv ((updateOwner exShape exG ⟨none, "bob", ⟨true, true, true⟩⟩).1) ∧
    shapeAccInv ((updateDefaultOwner exShape exG ⟨false, true, true⟩).1) ∧
    accInv ((ShapeOwner.mk "s1" "alice" ⟨true, true, true⟩).access) :=
  ⟨c1_edit_implies_access_amended.1 exShape exG _ (by decide),
   c1_edit_implies_access_amended.2.1 exShape exG _ (by decide),
   c1_edit_implies_access_amended.2.2.1 exShape exG _ (by decide),
   c1_edit_implies_access_amended.2.2.2.2 exShape exG
     { exData with owners := [⟨"s1", "alice", ⟨true, true, true⟩⟩] } (by decide)
     _ (by decide)⟩

/-! ## C5 — the `ownedBy` predicate -/

/-- C5 fails as stated: for the required set {vision, movement} and a default
triple granting movement but not vision, `ownedBy` answers `true` (the code
tests the default triple one required capability at a time, so granting any
single required capability suffices), while the claimed all-capabilities
semantics answers `false`. -/
theorem c5_counterexample :
    ownedBy exG { exShape with defaultAccess := ⟨false, true, false⟩ }
        { movementAccess := true, visionAccess := true } = true ∧
    ownedBySpecC5 exG { exShape with defaultAccess := ⟨false, true, false⟩ }
        { movementAccess := true, visionAccess := true } = false := by
  decide

/-- C5 (amended): `ownedBy` — a pure predicate, modelled as a function of the
game store and the shape — answers true exactly when the acting identity is
the DM, or impersonates an active token, or the default triple grants **at
least one** required capability, or a per-user entry for the acting user
grants all required capabilities. -/
theorem c5_ownedBy_amended (g : GameStore) (s : Shape) (o : OwnedByOptions) :
    ownedBy g s o = true ↔
      g.IS_DM = true ∨ (g.FAKE_PLAYER = true ∧ s.uuid ∈ g.activeTokens) ∨
      (o.editAccess = true ∧ s.defaultAccess.edit = true) ∨
      (o.movementAccess = true ∧ s.defaultAccess.movement = true) ∨
      (o.visionAccess = true ∧ s.defaultAccess.vision = true) ∨
      ∃ u ∈ s._owners, u.user = g.username ∧
        (o.editAccess = true → u.access.edit = true) ∧
        (o.movementAccess = true → u.access.movement = true) ∧
        (o.visionAccess = true → u.access.vision = true) := by
  obtain ⟨oe, ov, om⟩ := o
  cases oe <;> cases ov <;> cases om <;>
    simp [ownedBy, List.any_eq_true, List.elem_iff, and_assoc, or_assoc]

/-! ## C10 — `ownedBy` with an empty capability requirement -/

/-- C10: with no capability requested, `ownedBy` answers true exactly when the
acting identity is the DM, or impersonates an active token, or simply appears
in the owner list — with any access values, even all false; the default
triple plays no role. -/
theorem c10_ownedBy_empty_requirement (g : GameStore) (s : Shape) :
    ownedBy g s {} = true ↔
      g.IS_DM = true ∨ (g.FAKE_PLAYER = true ∧ s.uuid ∈ g.activeTokens) ∨
      ∃ u ∈ s._owners, u.user = g.username := by
  simp [ownedBy, List.any_eq_true, List.elem_iff, and_assoc, or_assoc]

/-! ## C6 — edit revocation on partial downgrade -/

/-- With the shape id left implicit and the user present, `updateOwner`
replaces the first matching entry's access by the rule-adjusted triple. -/
lemma updateOwner_owners_of_found (s : Shape) (g : GameStore) (o : PartialOwner)
    (t : ShapeOwner) (hsh : o.oshape = none)
    (hfind : s._owners.find? (fun ow => ow.user == o.user) = some t) :
    ((updateOwner s g o).1)._owners = updateFirst (fun ow => ow.user == o.user)
      (fun ow => { ow with access := applyAccessRules t.access o.access }) s._owners := by
  unfold updateOwner
  have hg : ¬(o.oshape.getD s.uuid ≠ s.uuid) := by simp [hsh]
  simp only [if_neg hg, hfind]

lemma applyAccessRules_edit_off (cur new : ShapeAccess) (hcur : cur.edit = true)
    (hnew : new.vision = false ∨ new.movement = false) :
    (applyAccessRules cur new).edit = false := by
  revert cur new; decide

/-- C6: a grant whose stored state has `edit = true`, updated with a triple
switching off vision or movement, ends with `edit = false` — for a per-owner
grant through `updateOwner` and for the default triple through
`updateDefaultOwner`. -/
theorem c6_edit_revocation :
    (∀ (s : Shape) (g : GameStore) (o : PartialOwner) (t : ShapeOwner),
       o.oshape = none →
       s._owners.find? (fun ow => ow.user == o.user) = some t →
       t.access.edit = true →
       (o.access.vision = false ∨ o.access.movement = false) →
       ∃ t', (((updateOwner s g o).1)._owners.find? (fun ow => ow.user == o.user))
               = some t' ∧ t'.access.edit = false) ∧
    (∀ (s : Shape) (g : GameStore) (a : ShapeAccess),
       s.defaultAccess.edit = true →
       (a.vision = false ∨ a.movement = false) →
       ((updateDefaultOwner s g a).1).defaultAccess.edit = false) := by
  constructor
  · intro s g o t hsh hfind hedit hdown
    rw [updateOwner_owners_of_found s g o t hsh hfind]
    refine ⟨{ t with access := applyAccessRules t.access o.access }, ?_, ?_⟩
    · exact find?_updateFirst _
        (fun ow => { ow with access := applyAccessRules t.access o.access })
        (fun x hx => hx) s._owners t hfind
    · exact applyAccessRules_edit_off _ _ hedit hdown
  · intro s g a hedit hdown
    exact applyAccessRules_edit_off _ _ hedit hdown

/-- Witness for C6: an edit-capable owner grant and default triple, downgraded
by switching vision off, both end with edit revoked. -/
theorem c6_edit_revocation_witness :
    (∃ t', (((updateOwner
        { exShape with _owners := [⟨"s1", "bob", ⟨true, true, true⟩⟩],
                       defaultAccess := ⟨true, true, true⟩ }
        exG ⟨none, "bob", ⟨false, true, true⟩⟩).1)._owners.find?
          (fun ow => ow.user == (⟨none, "bob", ⟨false, true, true⟩⟩ : PartialOwner).user))
        = some t' ∧ t'.access.edit = false) ∧
    ((updateDefaultOwner
        { exShape with _owners := [⟨"s1", "bob", ⟨true, true, true⟩⟩],
                       defaultAccess := ⟨true, true, true⟩ }
        exG ⟨false, true, true⟩).1).defaultAccess.edit = false :=
  ⟨c6_edit_revocation.1
      { exShape with _owners := [⟨"s1", "bob", ⟨true, true, true⟩⟩],
                     defaultAccess := ⟨true, true, true⟩ }
      exG ⟨none, "bob", ⟨false, true, true⟩⟩ ⟨"s1", "bob", ⟨true, true, true⟩⟩
      rfl (by decide) (by decide) (Or.inl rfl),
   c6_edit_revocation.2
      { exShape with _owners := [⟨"s1", "bob", ⟨true, true, true⟩⟩],
                     defaultAccess := ⟨true, true, true⟩ }
      exG ⟨false, true, true⟩ (by decide) (Or.inl rfl)⟩

/-! ## Lemmas about `findIdxA` and index-based erasure -/

lemma findIdxA_eq_none_iff (p : α → Bool) :
    ∀ l : List α, findIdxA p l = none ↔ ∀ x ∈ l, p x = false := by
  intro l
  induction l with
  | nil => simp [findIdxA]
  | cons x xs ih =>
    by_cases hx : p x
    · simp [findIdxA, hx]
    · simp only [findIdxA, if_neg hx, Option.map_eq_none', List.mem_cons]
      constructor
      · intro h y hy
        rcases hy with rfl | hy
        · simpa using hx
        · exact (ih.mp h) y hy
      · intro h
        exact ih.mpr fun y hy => h y (Or.inr hy)

lemma findIdxA_some_lt (p : α → Bool) :
    ∀ (l : List α) (i : Nat), findIdxA p l = some i → i < l.length := by
  intro l
  induction l with
  | nil => intro i h; simp [findIdxA] at h
  | cons x xs ih =>
    intro i h
    by_cases hx : p x
    · simp only [findIdxA, if_pos hx, Option.some.injEq] at h
      subst h
      simp
    · simp only [findIdxA, if_neg hx] at h
      cases hfind : findIdxA p xs with
      | none => rw [hfind] at h; simp at h
      | some j =>
        rw [hfind] at h
        simp only [Option.map_some', Option.some.injEq] at h
        subst h
        have := ih j hfind
        simp only [List.length_cons]
        omega

lemma findIdxA_some_mem (p : α → Bool) :
    ∀ (l : List α) (i : Nat), findIdxA p l = some i → ∃ x ∈ l, p x = true := by
  intro l
  induction l with
  | nil => intro i h; simp [findIdxA] at h
  | cons x xs ih =>
    intro i h
    by_cases hx : p x
    · exact ⟨x, List.mem_cons_self x xs, hx⟩
    · simp only [findIdxA, if_neg hx] at h
      cases hfind : findIdxA p xs with
      | none => rw [hfind] at h; simp at h
      | some j =>
        rcases ih j hfind with ⟨y, hy, hpy⟩
        exact ⟨y, List.mem_cons_of_mem x hy, hpy⟩

/-- Splicing out the element found by a first-index search for equality is
`List.erase`. -/
lemma eraseIdx_of_findIdxA_beq (a : String) :
    ∀ (l : List String) (i : Nat),
      findIdxA (fun x => x == a) l = some i → l.eraseIdx i = l.erase a := by
  intro l
  induction l with
  | nil => intro i h; simp [findIdxA] at h
  | cons x xs ih =>
    intro i h
    by_cases hx : x == a
    · simp only [findIdxA, if_pos hx] at h
      cases h
      simp [List.erase_cons, hx, List.eraseIdx]
    · simp only [findIdxA, if_neg hx] at h
      cases hfind : findIdxA (fun x => x == a) xs with
      | none => rw [hfind] at h; simp at h
      | some j =>
        rw [hfind] at h
        simp at h
        subst h
        simp [List.erase_cons, hx, List.eraseIdx, ih j hfind]

/-- An element not matched by the search predicate survives the splice. -/
lemma mem_eraseIdx_of_findIdxA_ne (p : α → Bool) :
    ∀ (l : List α) (i : Nat) (x : α),
      findIdxA p l = some i → x ∈ l → p x = false → x ∈ l.eraseIdx i := by
  intro l
  induction l with
  | nil => intro i x h; simp [findIdxA] at h
  | cons y ys ih =>
    intro i x h hx hpx
    by_cases hy : p y
    · simp only [findIdxA, if_pos hy] at h
      cases h
      simp only [List.eraseIdx]
      rcases List.mem_cons.mp hx with rfl | hmem
      · rw [hy] at hpx; cases hpx
      · exact hmem
    · simp only [findIdxA, if_neg hy] at h
      cases hfind : findIdxA p ys with
      | none => rw [hfind] at h; simp at h
      | some j =>
        rw [hfind] at h
        simp at h
        subst h
        simp only [List.eraseIdx]
        rcases List.mem_cons.mp hx with rfl | hmem
        · exact List.mem_cons_self x _
        · exact List.mem_cons_of_mem y (ih j x hfind hmem hpx)

lemma mem_of_mem_eraseIdx :
    ∀ (l : List α) (i : Nat) (x : α), x ∈ l.eraseIdx i → x ∈ l := by
  intro l
  induction l with
  | nil => intro i x h; simp [List.eraseIdx] at h
  | cons y ys ih =>
    intro i x h
    cases i with
    | zero => exact List.mem_cons_of_mem y (by simpa [List.eraseIdx] using h)
    | succ j =>
      simp only [List.eraseIdx] at h
      rcases List.mem_cons.mp h with rfl | hmem
      · exact List.mem_cons_self x _
      · exact List.mem_cons_of_mem y (ih j x hmem)

/-! ## Lemmas about the blocker reconciliation -/

/-- After `blockerReconcile`, uuid membership in the blocker list agrees with
the flag, and the uuid still occurs at most once. -/
lemma blockerReconcile_mem (uuid : String) (flag : Bool) (l : List String)
    (hc : l.count uuid ≤ 1) :
    ((flag = true) ↔ uuid ∈ (blockerReconcile uuid flag l).2) ∧
    (blockerReconcile uuid flag l).2.count uuid ≤ 1 := by
  unfold blockerReconcile
  cases flag with
  | true =>
    cases hfind : findIdxA (fun x => x == uuid) l with
    | none =>
      have habs : uuid ∉ l := by
        intro hmem
        have := ((findIdxA_eq_none_iff _ l).mp hfind) uuid hmem
        simp at this
      constructor
      · simp
      · simp [List.count_append, List.count_eq_zero.mpr habs]
    | some i =>
      rcases findIdxA_some_mem _ l i hfind with ⟨x, hx, hpx⟩
      have : x = uuid := by simpa using hpx
      subst this
      exact ⟨by simp [hx], hc⟩
  | false =>
    cases hfind : findIdxA (fun x => x == uuid) l with
    | none =>
      have habs : uuid ∉ l := by
        intro hmem
        have := ((findIdxA_eq_none_iff _ l).mp hfind) uuid hmem
        simp at this
      exact ⟨by simp [habs], hc⟩
    | some i =>
      rcases findIdxA_some_mem _ l i hfind with ⟨x, hx, hpx⟩
      have hxe : x = uuid := by simpa using hpx
      subst hxe
      have h1 : 1 ≤ l.count x := List.one_le_count_iff.mpr hx
      have herase : l.eraseIdx i = l.erase x := eraseIdx_of_findIdxA_beq x l i hfind
      have hcount : (l.erase x).count x = l.count x - 1 := List.count_erase_self x l
      have hzero : (l.erase x).count x = 0 := by omega
      constructor
      · simp [herase, List.count_eq_zero.mp hzero]
      · simp [herase, hzero]

/-- When membership already agrees with the flag, `blockerReconcile` changes
nothing and reports no alteration. -/
lemma blockerReconcile_noop (uuid : String) (flag : Bool) (l : List String)
    (h : (flag = true) ↔ uuid ∈ l) :
    blockerReconcile uuid flag l = (false, l) := by
  unfold blockerReconcile
  cases flag with
  | true =>
    cases hfind : findIdxA (fun x => x == uuid) l with
    | none =>
      exfalso
      have := ((findIdxA_eq_none_iff _ l).mp hfind) uuid (h.mp rfl)
      simp at this
    | some i => rfl
  | false =>
    cases hfind : findIdxA (fun x => x == uuid) l with
    | none => rfl
    | some i =>
      exfalso
      rcases findIdxA_some_mem _ l i hfind with ⟨x, hx, hpx⟩
      have : x = uuid := by simpa using hpx
      subst this
      exact absurd (h.mpr hx) (by simp)

/-- The altered mark is set exactly when the blocker list changed. -/
lemma blockerReconcile_altered_iff (uuid : String) (flag : Bool) (l : List String) :
    (blockerReconcile uuid flag l).1 = true ↔ (blockerReconcile uuid flag l).2 ≠ l := by
  unfold blockerReconcile
  cases flag with
  | true =>
    cases hfind : findIdxA (fun x => x == uuid) l with
    | none =>
      simp only [true_iff]
      intro hEq
      have := congrArg List.length hEq
      simp at this
    | some i => simp
  | false =>
    cases hfind : findIdxA (fun x => x == uuid) l with
    | none => simp
    | some i =>
      have hlt := findIdxA_some_lt _ l i hfind
      simp only [true_iff]
      intro hEq
      have := congrArg List.length hEq
      rw [List.length_eraseIdx_of_lt hlt] at this
      omega

/-! ## C2 — blocker-set consistency under obstruction mutations -/

lemma consistent_runOp (p : Shape × FloorState) (op : BlockOp)
    (h : consistent p.1 p.2) : consistent (runOp p op).1 (runOp p op).2 := by
  obtain ⟨s, st⟩ := p
  obtain ⟨hv, hvc, hm, hmc⟩ := h
  cases op with
  | move b =>
    have hb := blockerReconcile_mem s.uuid b st.movementBlockers hmc
    exact ⟨hv, hvc, hb.1, hb.2⟩
  | vision b =>
    have hb := blockerReconcile_mem s.uuid b st.visionBlockers hvc
    exact ⟨hb.1, hb.2, hm, hmc⟩

/-- C2: for every sequence of `setMovementBlock` calls and
vision-flag-change-plus-`checkVisionSources` steps, consistency — uuid in the
floor's movement (resp. vision) blocker list exactly when the corresponding
obstruction flag is set, with at most one occurrence — is preserved after
every call; in particular, starting with `visionObstruction = false` on an
empty floor, setting the flag and running `checkVisionSources` once adds the
uuid and returns `true`, and doing so again returns `false` with the uuid
still present exactly once. -/
theorem c2_blocker_set_consistency :
    (∀ (s : Shape) (st : FloorState) (ops : List BlockOp),
       consistent s st →
       consistent (runOps (s, st) ops).1 (runOps (s, st) ops).2) ∧
    ((checkVisionSources { exShape with visionObstruction := true } true emptyFloor).1
        = true ∧
     (checkVisionSources { exShape with visionObstruction := true } true
        emptyFloor).2.visionBlockers.count "s1" = 1 ∧
     (checkVisionSources { exShape with visionObstruction := true } true
        (checkVisionSources { exShape with visionObstruction := true } true
          emptyFloor).2).1 = false ∧
     (checkVisionSources { exShape with visionObstruction := true } true
        (checkVisionSources { exShape with visionObstruction := true } true
          emptyFloor).2).2.visionBlockers.count "s1" = 1) := by
  constructor
  · intro s st ops h
    suffices H : ∀ (ops : List BlockOp) (p : Shape × FloorState),
        consistent p.1 p.2 →
        consistent (ops.foldl runOp p).1 (ops.foldl runOp p).2 from H ops (s, st) h
    intro ops
    induction ops with
    | nil => intro p h; exact h
    | cons op rest ih => intro p h; exact ih _ (consistent_runOp p op h)
  · decide

/-- Witness for C2: consistency proved by the theorem for a concrete shape,
floor and mutation sequence, hypotheses discharged by evaluation. -/
theorem c2_blocker_set_consistency_witness :
    consistent (runOps (exShape, emptyFloor)
        [BlockOp.move true, BlockOp.vision true, BlockOp.move false]).1
      (runOps (exShape, emptyFloor)
        [BlockOp.move true, BlockOp.vision true, BlockOp.move false]).2 :=
  c2_blocker_set_consistency.1 exShape emptyFloor
    [BlockOp.move true, BlockOp.vision true, BlockOp.move false] (by decide)

/-! ## C7 — the return value of `checkVisionSources` -/

/-- C7 fails as stated: for a shape that is no vision obstruction but carries
a fresh vision-source aura, `checkVisionSources` registers the aura in the
floor's vision-source registry — a change — yet returns `false`: the return
value only tracks blocker-list alterations. -/
theorem c7_counterexample :
    (checkVisionSources { exShape with auras := [⟨"a1", 0, 0, true⟩] } true
        emptyFloor).1 = false ∧
    (checkVisionSources { exShape with auras := [⟨"a1", 0, 0, true⟩] } true
        emptyFloor).2.visionSources ≠ emptyFloor.visionSources := by
  decide

/-- C7 (amended): `checkVisionSources` returns `true` exactly when the call
changed the floor's vision blocker list; changes to the vision-source
registry do not influence the return value. -/
theorem c7_returns_altered_blockers_amended (s : Shape) (rc : Bool) (st : FloorState) :
    (checkVisionSources s rc st).1 = true ↔
      (checkVisionSources s rc st).2.visionBlockers ≠ st.visionBlockers :=
  blockerReconcile_altered_iff s.uuid s.visionObstruction st.visionBlockers

/-! ## Lemmas about the vision-source reconciliation -/

lemma vsStep_nodup (uuid : String) (au : Aura) (acc : List VSEntry)
    (h : (acc.map VSEntry.aura).Nodup) :
    ((vsStep uuid acc au).map VSEntry.aura).Nodup := by
  unfold vsStep
  cases hfind : findIdxA (fun o => o.aura == au.uuid) acc with
  | none =>
    by_cases hv : au.visionSource
    · simp only [hv, if_true, List.map_append]
      refine List.Nodup.append h (List.nodup_singleton _) ?_
      intro a ha hb
      simp only [List.map_cons, List.map_nil, List.mem_singleton] at hb
      subst hb
      rcases List.mem_map.mp ha with ⟨e, he, hae⟩
      have := ((findIdxA_eq_none_iff _ acc).mp hfind) e he
      rw [hae] at this
      simp at this
    · simpa [hv] using h
  | some i =>
    by_cases hv : au.visionSource
    · simpa [hv] using h
    · simp only [hv, if_false]
      exact ((acc.eraseIdx_sublist i).map VSEntry.aura).nodup h

lemma vsStep_preserve_exists (uuid : String) (au : Aura) (acc : List VSEntry)
    (aid : String) (hne : au.uuid ≠ aid)
    (h : ∃ e ∈ acc, e.aura = aid) : ∃ e ∈ vsStep uuid acc au, e.aura = aid := by
  rcases h with ⟨e, he, hea⟩
  unfold vsStep
  cases hfind : findIdxA (fun o => o.aura == au.uuid) acc with
  | none =>
    by_cases hv : au.visionSource
    · exact ⟨e, by simp only [hv, if_true]; exact List.mem_append_left _ he, hea⟩
    · exact ⟨e, by simp only [hv, if_false]; exact he, hea⟩
  | some i =>
    by_cases hv : au.visionSource
    · exact ⟨e, by simp only [hv, if_true]; exact he, hea⟩
    · refine ⟨e, ?_, hea⟩
      simp only [hv, if_false]
      refine mem_eraseIdx_of_findIdxA_ne _ acc i e hfind he ?_
      rw [hea]
      exact beq_eq_false_iff_ne.mpr fun hh => hne hh.symm

lemma vsStep_preserve_not (uuid : String) (au : Aura) (acc : List VSEntry)
    (aid : String) (hne : au.uuid ≠ aid)
    (h : ∀ e ∈ acc, e.aura ≠ aid) : ∀ e ∈ vsStep uuid acc au, e.aura ≠ aid := by
  intro e he
  unfold vsStep at he
  cases hfind : findIdxA (fun o => o.aura == au.uuid) acc with
  | none =>
    rw [hfind] at he
    by_cases hv : au.visionSource
    · simp only [hv, if_true] at he
      rcases List.mem_append.mp he with hmem | hmem
      · exact h e hmem
      · have heq : e = ⟨uuid, au.uuid⟩ := by simpa using hmem
        subst heq
        exact hne
    · simp only [hv, if_false] at he
      exact h e he
  | some i =>
    rw [hfind] at he
    by_cases hv : au.visionSource
    · simp only [hv, if_true] at he
      exact h e he
    · simp only [hv, if_false] at he
      exact h e (mem_of_mem_eraseIdx _ _ _ he)

/-- Splicing out the entry found by aura id removes the only entry with that
aura when the registry's aura ids are duplicate-free. -/
lemma eraseIdx_aura_ne (a : String) :
    ∀ (l : List VSEntry) (i : Nat), (l.map VSEntry.aura).Nodup →
      findIdxA (fun o => o.aura == a) l = some i →
      ∀ e ∈ l.eraseIdx i, e.aura ≠ a := by
  intro l
  induction l with
  | nil => intro i _ hf; simp [findIdxA] at hf
  | cons x xs ih =>
    intro i hnd hf
    have hnd' : ¬x.aura ∈ xs.map VSEntry.aura ∧ (xs.map VSEntry.aura).Nodup := by
      rw [List.map_cons, List.nodup_cons] at hnd
      exact hnd
    by_cases hx : x.aura == a
    · simp only [findIdxA, if_pos hx] at hf
      cases hf
      intro e he
      simp only [List.eraseIdx] at he
      have hxa : x.aura = a := by simpa using hx
      intro hea
      apply hnd'.1
      rw [hxa, ← hea]
      exact List.mem_map_of_mem _ he
    · simp only [findIdxA, if_neg hx] at hf
      cases hfind : findIdxA (fun o => o.aura == a) xs with
      | none => rw [hfind] at hf; simp at hf
      | some j =>
        rw [hfind] at hf
        simp only [Option.map_some', Option.some.injEq] at hf
        subst hf
        intro e he
        simp only [List.eraseIdx] at he
        rcases List.mem_cons.mp he with rfl | hmem
        · simpa using hx
        · exact ih j hnd'.2 hfind e hmem

lemma vsStep_establish (uuid : String) (au : Aura) (acc : List VSEntry)
    (h : (acc.map VSEntry.aura).Nodup) :
    (au.visionSource = true → ∃ e ∈ vsStep uuid acc au, e.aura = au.uuid) ∧
    (au.visionSource = false → ∀ e ∈ vsStep uuid acc au, e.aura ≠ au.uuid) := by
  unfold vsStep
  cases hfind : findIdxA (fun o => o.aura == au.uuid) acc with
  | none =>
    constructor
    · intro hv
      refine ⟨⟨uuid, au.uuid⟩, ?_, rfl⟩
      simp only [hv, if_true]
      exact List.mem_append_right _ (List.mem_singleton.mpr rfl)
    · intro hv e he
      simp only [hv, if_false] at he
      have := ((findIdxA_eq_none_iff _ acc).mp hfind) e he
      simpa using this
  | some i =>
    constructor
    · intro hv
      simp only [hv, if_true]
      rcases findIdxA_some_mem _ acc i hfind with ⟨e, he, hpe⟩
      exact ⟨e, he, by simpa using hpe⟩
    · intro hv
      simp only [hv, if_false]
      exact eraseIdx_aura_ne au.uuid acc i h hfind

lemma vsFold_nodup (uuid : String) :
    ∀ (auras : List Aura) (acc : List VSEntry), (acc.map VSEntry.aura).Nodup →
      ((auras.foldl (vsStep uuid) acc).map VSEntry.aura).Nodup := by
  intro auras
  induction auras with
  | nil => intro acc h; exact h
  | cons au rest ih =>
    intro acc h
    exact ih (vsStep uuid acc au) (vsStep_nodup uuid au acc h)

lemma vsFold_preserve_exists (uuid : String) :
    ∀ (auras : List Aura) (acc : List VSEntry) (aid : String),
      aid ∉ auras.map Aura.uuid → (∃ e ∈ acc, e.aura = aid) →
      ∃ e ∈ auras.foldl (vsStep uuid) acc, e.aura = aid := by
  intro auras
  induction auras with
  | nil => intro acc aid _ h; exact h
  | cons au rest ih =>
    intro acc aid hnotin h
    rw [List.map_cons, List.mem_cons] at hnotin
    push_neg at hnotin
    exact ih (vsStep uuid acc au) aid hnotin.2
      (vsStep_preserve_exists uuid au acc aid (fun hh => hnotin.1 hh.symm) h)

lemma vsFold_preserve_not (uuid : String) :
    ∀ (auras : List Aura) (acc : List VSEntry) (aid : String),
      aid ∉ auras.map Aura.uuid → (∀ e ∈ acc, e.aura ≠ aid) →
      ∀ e ∈ auras.foldl (vsStep uuid) acc, e.aura ≠ aid := by
  intro auras
  induction auras with
  | nil => intro acc aid _ h; exact h
  | cons au rest ih =>
    intro acc aid hnotin h
    rw [List.map_cons, List.mem_cons] at hnotin
    push_neg at hnotin
    exact ih (vsStep uuid acc au) aid hnotin.2
      (vsStep_preserve_not uuid au acc aid (fun hh => hnotin.1 hh.symm) h)

/-- After the first vision-source loop, every vision-source aura of the shape
has a registry entry with its aura id and every non-vision-source aura has
none. -/
lemma vsFold_establish (uuid : String) :
    ∀ (auras : List Aura) (acc : List VSEntry),
      (acc.map VSEntry.aura).Nodup → (auras.map Aura.uuid).Nodup →
      ∀ au ∈ auras,
        (au.visionSource = true →
          ∃ e ∈ auras.foldl (vsStep uuid) acc, e.aura = au.uuid) ∧
        (au.visionSource = false →
          ∀ e ∈ auras.foldl (vsStep uuid) acc, e.aura ≠ au.uuid) := by
  intro auras
  induction auras with
  | nil => intro acc _ _ au hau; simp at hau
  | cons a rest ih =>
    intro acc hnd hA au hau
    have hA' : a.uuid ∉ rest.map Aura.uuid ∧ (rest.map Aura.uuid).Nodup := by
      rw [List.map_cons, List.nodup_cons] at hA
      exact hA
    rcases List.mem_cons.mp hau with rfl | hmem
    · have hstep := vsStep_establish uuid au acc hnd
      constructor
      · intro hv
        exact vsFold_preserve_exists uuid rest (vsStep uuid acc au) au.uuid hA'.1
          (hstep.1 hv)
      · intro hv
        exact vsFold_preserve_not uuid rest (vsStep uuid acc au) au.uuid hA'.1
          (hstep.2 hv)
    · exact ih (vsStep uuid acc a) (vsStep_nodup uuid a acc hnd) hA'.2 au hmem

/-- The first vision-source loop is a no-op on a registry that already agrees
with the shape's auras. -/
lemma vsStep_noop (uuid : String) (au : Aura) (acc : List VSEntry)
    (h1 : au.visionSource = true → ∃ e ∈ acc, e.aura = au.uuid)
    (h2 : au.visionSource = false → ∀ e ∈ acc, e.aura ≠ au.uuid) :
    vsStep uuid acc au = acc := by
  unfold vsStep
  cases hfind : findIdxA (fun o => o.aura == au.uuid) acc with
  | none =>
    cases hv : au.visionSource with
    | false => simp [hv]
    | true =>
      exfalso
      rcases h1 hv with ⟨e, he, hea⟩
      have := ((findIdxA_eq_none_iff _ acc).mp hfind) e he
      rw [hea] at this
      simp at this
  | some i =>
    cases hv : au.visionSource with
    | true => simp [hv]
    | false =>
      exfalso
      rcases findIdxA_some_mem _ acc i hfind with ⟨e, he, hpe⟩
      exact h2 hv e he (by simpa using hpe)

lemma vsFold_noop (uuid : String) :
    ∀ (auras : List Aura) (acc : List VSEntry),
      (∀ au ∈ auras,
        (au.visionSource = true → ∃ e ∈ acc, e.aura = au.uuid) ∧
        (au.visionSource = false → ∀ e ∈ acc, e.aura ≠ au.uuid)) →
      auras.foldl (vsStep uuid) acc = acc := by
  intro auras
  induction auras with
  | nil => intro acc _; rfl
  | cons a rest ih =>
    intro acc h
    have hstep : vsStep uuid acc a = acc :=
      vsStep_noop uuid a acc (h a (List.mem_cons_self a rest)).1
        (h a (List.mem_cons_self a rest)).2
    simp only [List.foldl_cons, hstep]
    exact ih acc fun au hau => h au (List.mem_cons_of_mem a hau)

/-- The second vision-source loop is the filter keeping every entry that does
not belong to this shape or whose aura is still one of its vision-source
auras. -/
lemma vsPrune_eq_filter (uuid : String) (auras : List Aura) :
    ∀ vs : List VSEntry, vsPrune uuid auras vs = vs.filter
      (fun ls => !(ls.shape == uuid &&
        !(auras.any fun a => a.uuid == ls.aura && a.visionSource))) := by
  intro vs
  induction vs with
  | nil => rfl
  | cons e es ih =>
    simp only [vsPrune, List.foldr_cons] at ih ⊢
    by_cases hc : (e.shape == uuid &&
        !(auras.any fun a => a.uuid == e.aura && a.visionSource)) = true
    · rw [if_pos hc, ih, List.filter_cons_of_neg (by simp [hc])]
    · rw [if_neg hc, ih, List.filter_cons_of_pos (by simp [hc])]

lemma vsPrune_subset (uuid : String) (auras : List Aura) (vs : List VSEntry) :
    ∀ e ∈ vsPrune uuid auras vs, e ∈ vs := by
  intro e he
  rw [vsPrune_eq_filter] at he
  exact List.mem_of_mem_filter he

lemma vsPrune_prop (uuid : String) (auras : List Aura) (vs : List VSEntry) :
    ∀ e ∈ vsPrune uuid auras vs, e.shape = uuid →
      ∃ a ∈ auras, a.uuid = e.aura ∧ a.visionSource = true := by
  intro e he hsh
  rw [vsPrune_eq_filter] at he
  have hp := List.of_mem_filter he
  simp only [hsh, beq_self_eq_true, Bool.true_and, Bool.not_not] at hp
  rcases List.any_eq_true.mp hp with ⟨a, ha, hpa⟩
  rw [Bool.and_eq_true, beq_iff_eq] at hpa
  exact ⟨a, ha, hpa.1, hpa.2⟩

lemma vsPrune_keep_mem (uuid : String) (auras : List Aura) (vs : List VSEntry)
    (e : VSEntry) (he : e ∈ vs)
    (h : ∃ a ∈ auras, a.uuid = e.aura ∧ a.visionSource = true) :
    e ∈ vsPrune uuid auras vs := by
  rw [vsPrune_eq_filter]
  refine List.mem_filter.mpr ⟨he, ?_⟩
  rcases h with ⟨a, ha, h1, h2⟩
  have hany : (auras.any fun a => a.uuid == e.aura && a.visionSource) = true :=
    List.any_eq_true.mpr ⟨a, ha, by rw [Bool.and_eq_true, beq_iff_eq]; exact ⟨h1, h2⟩⟩
  simp [hany]

lemma vsPrune_noop (uuid : String) (auras : List Aura) (vs : List VSEntry)
    (h : ∀ e ∈ vs, e.shape = uuid → ∃ a ∈ auras, a.uuid = e.aura ∧ a.visionSource = true) :
    vsPrune uuid auras vs = vs := by
  rw [vsPrune_eq_filter]
  refine List.filter_eq_self.mpr ?_
  intro e he
  by_cases hsh : e.shape = uuid
  · rcases h e he hsh with ⟨a, ha, h1, h2⟩
    have hany : (auras.any fun a => a.uuid == e.aura && a.visionSource) = true :=
      List.any_eq_true.mpr ⟨a, ha, by rw [Bool.and_eq_true, beq_iff_eq]; exact ⟨h1, h2⟩⟩
    simp [hany]
  · simp [hsh]

/-- The vision-source reconciliation of `checkVisionSources` — the first loop
followed by the prune — reaches a fixed point after one application, given
duplicate-free aura ids on the shape and in the registry. -/
lemma visionPhase_fixed (uuid : String) (auras : List Aura) (vs : List VSEntry)
    (hA : (auras.map Aura.uuid).Nodup) (hV : (vs.map VSEntry.aura).Nodup) :
    auras.foldl (vsStep uuid) (vsPrune uuid auras (auras.foldl (vsStep uuid) vs)) =
        vsPrune uuid auras (auras.foldl (vsStep uuid) vs) ∧
    vsPrune uuid auras (vsPrune uuid auras (auras.foldl (vsStep uuid) vs)) =
        vsPrune uuid auras (auras.foldl (vsStep uuid) vs) := by
  have hest := vsFold_establish uuid auras vs hV hA
  have hwprops : ∀ au ∈ auras,
      (au.visionSource = true →
        ∃ e ∈ vsPrune uuid auras (auras.foldl (vsStep uuid) vs), e.aura = au.uuid) ∧
      (au.visionSource = false →
        ∀ e ∈ vsPrune uuid auras (auras.foldl (vsStep uuid) vs), e.aura ≠ au.uuid) := by
    intro au hau
    constructor
    · intro hv
      rcases (hest au hau).1 hv with ⟨e, he, hea⟩
      exact ⟨e, vsPrune_keep_mem uuid auras _ e he ⟨au, hau, hea.symm, hv⟩, hea⟩
    · intro hv e he
      exact (hest au hau).2 hv e (vsPrune_subset uuid auras _ e he)
  refine ⟨vsFold_noop uuid auras _ hwprops, vsPrune_noop uuid auras _ ?_⟩
  intro e he hsh
  exact vsPrune_prop uuid auras _ e he hsh

/-! ## C3 — idempotence of `checkVisionSources` -/

/-- C3: with no intervening change, a second `checkVisionSources` call returns
`false` and leaves the floor's blocker list and vision-source registry exactly
as the first call left them.  Well-formedness hypotheses: the shape's aura
ids and the registry's aura ids are duplicate-free and the uuid occurs at
most once in the vision blocker list. -/
theorem c3_checkVisionSources_idempotent (s : Shape) (st : FloorState) (rc rc' : Bool)
    (h1 : (s.auras.map Aura.uuid).Nodup)
    (h2 : (st.visionSources.map VSEntry.aura).Nodup)
    (h3 : st.visionBlockers.count s.uuid ≤ 1) :
    (checkVisionSources s rc' (checkVisionSources s rc st).2).1 = false ∧
    (checkVisionSources s rc' (checkVisionSources s rc st).2).2 =
      (checkVisionSources s rc st).2 := by
  obtain ⟨vb, mb, vs⟩ := st
  have hb := blockerReconcile_mem s.uuid s.visionObstruction vb h3
  have hnoop := blockerReconcile_noop s.uuid s.visionObstruction
      (blockerReconcile s.uuid s.visionObstruction vb).2 hb.1
  have hfix := visionPhase_fixed s.uuid s.auras vs h1 h2
  constructor
  · show (blockerReconcile s.uuid s.visionObstruction
        (blockerReconcile s.uuid s.visionObstruction vb).2).1 = false
    rw [hnoop]
  · show (⟨(blockerReconcile s.uuid s.visionObstruction
          (blockerReconcile s.uuid s.visionObstruction vb).2).2, mb,
        vsPrune s.uuid s.auras (s.auras.foldl (vsStep s.uuid)
          (vsPrune s.uuid s.auras (s.auras.foldl (vsStep s.uuid) vs)))⟩ : FloorState) =
      ⟨(blockerReconcile s.uuid s.visionObstruction vb).2, mb,
        vsPrune s.uuid s.auras (s.auras.foldl (vsStep s.uuid) vs)⟩
    rw [hnoop, hfix.1, hfix.2]

/-- Witness for C3 at a concrete obstructing, torch-bearing shape on an empty
floor. -/
theorem c3_checkVisionSources_idempotent_witness :
    (checkVisionSources
        { exShape with visionObstruction := true, auras := [⟨"a1", 0, 0, true⟩] } true
        (checkVisionSources
          { exShape with visionObstruction := true, auras := [⟨"a1", 0, 0, true⟩] } true
          emptyFloor).2).1 = false ∧
    (checkVisionSources
        { exShape with visionObstruction := true, auras := [⟨"a1", 0, 0, true⟩] } true
        (checkVisionSources
          { exShape with visionObstruction := true, auras := [⟨"a1", 0, 0, true⟩] } true
          emptyFloor).2).2 =
      (checkVisionSources
        { exShape with visionObstruction := true, auras := [⟨"a1", 0, 0, true⟩] } true
        emptyFloor).2 :=
  c3_checkVisionSources_idempotent
    { exShape with visionObstruction := true, auras := [⟨"a1", 0, 0, true⟩] }
    emptyFloor true true (by decide) (by decide) (by decide)

/-! ## C8 — group resolution -/

lemma optHas_eq_isSome (opts : List (String × OptVal)) (k : String) :
    optHas opts k = (optGet opts k).isSome := by
  unfold optHas optGet
  induction opts with
  | nil => rfl
  | cons q qs ih =>
    simp only [List.any_cons, List.find?]
    cases hq : (q.1 == k) with
    | true => simp
    | false => simpa using ih

lemma foldl_collect_eq_filterMap (um : List (String × Shape)) :
    ∀ (ids : List String) (acc : List Shape),
      ids.foldl
        (fun acc u =>
          match (um.find? fun q => q.1 == u).map (·.2) with
          | some sh => acc ++ [sh]
          | none => acc) acc
      = acc ++ ids.filterMap (fun u => (um.find? fun q => q.1 == u).map (·.2)) := by
  intro ids
  induction ids with
  | nil => intro acc; simp
  | cons u us ih =>
    intro acc
    simp only [List.foldl_cons, List.filterMap_cons]
    cases h : (um.find? fun q => q.1 == u).map (·.2) with
    | none => exact ih acc
    | some sh => exact (ih (acc ++ [sh])).trans (by simp)

/-- C8: a shape with neither `groupId` nor `groupInfo` in its options resolves
to `[self]`; a group leader (no `groupId`, carrying `groupInfo`) resolves to
itself followed by exactly the referenced members that still exist in the uuid
map, in order — referenced ids absent from the map (such as a deleted member)
are skipped without failing. -/
theorem c8_group_members (um : List (String × Shape)) (s : Shape) :
    (optHas s.options "groupId" = false → optHas s.options "groupInfo" = false →
      getGroupMembers um s = [s]) ∧
    (∀ ids : List String,
      optHas s.options "groupId" = false →
      optGet s.options "groupInfo" = some (OptVal.ids ids) →
      getGroupMembers um s =
        s :: ids.filterMap fun u => (um.find? fun q => q.1 == u).map (·.2)) := by
  constructor
  · intro h1 h2
    simp [getGroupMembers, h1, h2]
  · intro ids h1 hget
    have h2has : optHas s.options "groupInfo" = true := by
      rw [optHas_eq_isSome, hget]; rfl
    have h1get : optGet s.options "groupId" = none := by
      have h := optHas_eq_isSome s.options "groupId"
      rw [h1] at h
      exact Option.not_isSome_iff_eq_none.mp (by rw [← h]; simp)
    unfold getGroupMembers
    rw [h1, h2has]
    simp only [Bool.or_true, Bool.not_true, Bool.false_eq_true, if_false, h1get, h2has,
      hget, OptVal.castIds, beq_self_eq_true, if_true, Bool.not_false, if_false]
    rw [foldl_collect_eq_filterMap]
    simp

/-- Witness for C8: the no-group case and the leader with one stale member
reference, evaluated on concrete shapes. -/
theorem c8_group_members_witness :
    getGroupMembers [] exShape = [exShape] ∧
    getGroupMembers c8UM c8Leader =
      c8Leader :: (["m1", "missing", "m2"].filterMap fun u =>
        (c8UM.find? fun q => q.1 == u).map (·.2)) :=
  ⟨(c8_group_members [] exShape).1 (by decide) (by decide),
   (c8_group_members c8UM c8Leader).2 ["m1", "missing", "m2"] (by decide) (by decide)⟩

/-! ## C9 — inbound "remove shape" for an unknown uuid -/

/-- C9: an inbound `"remove shape"` event whose uuid is unknown to the shape
registry — on a known layer — logs the diagnostic and leaves the board state
untouched; the handler never throws. -/
theorem c9_remove_unknown_shape (b : BoardState) (payload : ServerShape)
    (hunknown : (b.uuidMap.find? fun q => q.1 == payload.uuid) = none)
    (hlayer : hasLayer b payload.layer = true) :
    onRemoveShape b payload = (b, some "Attempted to remove an unknown shape") := by
  unfold onRemoveShape
  rw [hunknown]
  rfl

/-- Witness for C9 on a concrete board and an unknown uuid. -/
theorem c9_remove_unknown_shape_witness :
    onRemoveShape c9Board { exData with uuid := "zzz" } =
      (c9Board, some "Attempted to remove an unknown shape") :=
  c9_remove_unknown_shape c9Board { exData with uuid := "zzz" } (by decide) (by decide)

/-! ## C4 — wire round trip -/

lemma mapFromPairs_go :
    ∀ (ps acc : List (String × OptVal)),
      (ps.map Prod.fst).Nodup →
      (∀ p ∈ ps, ∀ q ∈ acc, q.1 ≠ p.1) →
      ps.foldl
        (fun acc p =>
          if acc.any (fun q => q.1 == p.1) then
            acc.map fun q => if q.1 == p.1 then (q.1, p.2) else q
          else acc ++ [p]) acc
      = acc ++ ps := by
  intro ps
  induction ps with
  | nil => intro acc _ _; simp
  | cons p rest ih =>
    intro acc hnd hdisj
    have hnd' : p.1 ∉ rest.map Prod.fst ∧ (rest.map Prod.fst).Nodup := by
      rw [List.map_cons, List.nodup_cons] at hnd
      exact hnd
    have hnotin : (acc.any fun q => q.1 == p.1) = false := by
      rw [List.any_eq_false]
      intro q hq
      simpa using hdisj p (List.mem_cons_self p rest) q hq
    simp only [List.foldl_cons, hnotin, Bool.false_eq_true, if_false]
    rw [ih (acc ++ [p]) hnd'.2 ?_]
    · simp
    · intro r hr q hq
      rcases List.mem_append.mp hq with hq | hq
      · exact hdisj r (List.mem_cons_of_mem p hr) q hq
      · have : q = p := by simpa using hq
        subst this
        intro hqr
        exact hnd'.1 (hqr ▸ List.mem_map_of_mem Prod.fst hr)

/-- A JS `Map` built from pairs with pairwise-distinct keys lists exactly
those pairs back. -/
lemma mapFromPairs_of_nodup (ps : List (String × OptVal))
    (h : (ps.map Prod.fst).Nodup) : mapFromPairs ps = ps := by
  unfold mapFromPairs
  rw [mapFromPairs_go ps [] h (by intro p _ q hq; simp at hq)]
  simp

/-- C4 fails as stated: `fromDict` never restores `stroke_width` (the
constructed shape keeps the class default `5`), so a payload with
`stroke_width = 10` does not survive the round trip. -/
theorem c4_counterexample :
    getBaseDict (fromWireFormat exG { exData with stroke_width := 10 }).1 ≠
      { exData with stroke_width := 10 } := by
  decide

/-- C4 (amended): serialize-after-deserialize reproduces every §6 field except
`stroke_width`, which `fromDict` never restores and which therefore comes back
as the class default `5`.  The payload must carry a non-empty `name` (an empty
name is dropped in favour of the default `"Unknown shape"`), a present
`options` string with duplicate-free keys (an absent one is dropped), and a
default-access triple already satisfying edit ⇒ vision ∧ movement (otherwise
`updateDefaultOwner` rewrites it on arrival). -/
theorem c4_round_trip_amended (g : GameStore) (data : ServerShape)
    (ps : List (String × OptVal))
    (hname : data.name ≠ "")
    (hopts : data.options = some ps)
    (hkeys : (ps.map Prod.fst).Nodup)
    (hdflt : data.default_edit_access = true →
      data.default_vision_access = true ∧ data.default_movement_access = true) :
    getBaseDict (fromWireFormat g data).1 = { data with stroke_width := 5 } := by
  have hps : mapFromPairs ps = ps := mapFromPairs_of_nodup ps hkeys
  have hacc : applyAccessRules ⟨false, false, false⟩
      ⟨data.default_vision_access, data.default_movement_access,
       data.default_edit_access⟩ =
      ⟨data.default_vision_access, data.default_movement_access,
       data.default_edit_access⟩ := by
    cases he : data.default_edit_access with
    | false => simp [applyAccessRules, he]
    | true => simp [applyAccessRules, he, (hdflt he).1, (hdflt he).2]
  have hann : (if data.annotation ≠ "" then data.annotation else "") = data.annotation := by
    by_cases h : data.annotation = "" <;> simp [h]
  have hnm : (if data.name ≠ "" then data.name else "Unknown shape") = data.name := by
    simp [hname]
  have howners : List.map ownerToServer (List.map ownerToClient data.owners) =
      data.owners := by
    rw [List.map_map]
    exact List.map_id' data.owners
  simp only [fromWireFormat, fromDict, updateDefaultOwner, mkShape, getBaseDict,
    aurasFromServer, aurasToServer, hopts, hps, hacc, hann, hnm, howners]

/-- Witness for the amended C4 on a concrete benign payload. -/
theorem c4_round_trip_amended_witness :
    getBaseDict (fromWireFormat exG exData).1 = { exData with stroke_width := 5 } :=
  c4_round_trip_amended exG exData [] (by decide) rfl (by decide) (by decide)

end PlanarAlly
